import Mathlib

/-!
Verification of the connection registry (`hub/hub.go`) and the websocket
session handler (`main.go`, `GET /ws`) of the simple chat application.

The Go registry is `map[int32]map[*websocket.Conn]bool` guarded by one
reader/writer lock; each public operation holds the lock for its whole
body, so every operation is modelled as an atomic function on the state.
User ids are `int32` values (no arithmetic is performed on them, so `Int`
is a faithful model); a `*websocket.Conn` pointer is an opaque identity,
modelled as `Nat`.  A Go map is modelled as an association list with the
map operations made explicit (`findSet`, `setKey`, `delKey`); an inner
`map[*websocket.Conn]bool` is used by the source purely as a set, modelled
as a duplicate-free list with explicit insert (`insertConn`) and delete
(`removeConn`).
-/

set_option maxHeartbeats 1000000

namespace SimpleChat

/-- `int32` user identity from the source (`userID int32`). -/
abbrev UserId := Int

/-- Opaque identity of a `*websocket.Conn` pointer. -/
abbrev Conn := Nat

/-- Go map read `s, ok := clients[u]`: the value stored at the first entry
whose key is `u`, or `none` when the key is absent. -/
def findSet (u : UserId) : List (UserId × List Conn) → Option (List Conn)
  | [] => none
  | p :: rest => if p.1 = u then some p.2 else findSet u rest

/-- Go map write `clients[u] = s`: replace the entry for `u`, appending a
fresh entry when the key is absent. -/
def setKey (u : UserId) (s : List Conn) : List (UserId × List Conn) → List (UserId × List Conn)
  | [] => [(u, s)]
  | p :: rest => if p.1 = u then (u, s) :: rest else p :: setKey u s rest

/-- Go map delete `delete(clients, u)`. -/
def delKey (u : UserId) : List (UserId × List Conn) → List (UserId × List Conn)
  | [] => []
  | p :: rest => if p.1 = u then delKey u rest else p :: delKey u rest

/-- Go set insert `userConnections[conn] = true`: a no-op when the
connection is already present. -/
def insertConn (c : Conn) (s : List Conn) : List Conn :=
  if c ∈ s then s else s ++ [c]

/-- Go set delete `delete(userConnections, conn)`. -/
def removeConn (c : Conn) : List Conn → List Conn
  | [] => []
  | x :: rest => if x = c then removeConn c rest else x :: removeConn c rest

/-- The registry state: `Hub.clients` models
`clients map[int32]map[*websocket.Conn]bool`. -/
structure Hub where
  clients : List (UserId × List Conn)
deriving DecidableEq

/-- `hub.NewHub()`: the empty registry. -/
def NewHub : Hub := ⟨[]⟩

/-- `(*Hub).Register(userID, conn)` from `hub/hub.go`:
reads `userConnections, ok := h.clients[userID]`, computes
`isFirstConnection := !ok || len(userConnections) == 0`, creates the inner
set when absent, inserts `conn`, and returns `isFirstConnection`.
The resulting table always stores the old set (empty when absent) with
`conn` inserted at key `userID`. -/
def Hub.Register (h : Hub) (userID : UserId) (conn : Conn) : Hub × Bool :=
  (⟨setKey userID (insertConn conn ((findSet userID h.clients).getD [])) h.clients⟩,
   (findSet userID h.clients).isNone || ((findSet userID h.clients).getD []).isEmpty)

/-- `(*Hub).Unregister(userID, conn)` from `hub/hub.go`:
returns `false` untouched when the key is absent; otherwise deletes `conn`
from the inner set, and if the set became empty deletes the key and
returns `true`, else stores the shrunk set and returns `false`. -/
def Hub.Unregister (h : Hub) (userID : UserId) (conn : Conn) : Hub × Bool :=
  match findSet userID h.clients with
  | none => (h, false)
  | some userConnections =>
    if removeConn conn userConnections = [] then
      (⟨delKey userID h.clients⟩, true)
    else
      (⟨setKey userID (removeConn conn userConnections) h.clients⟩, false)

/-- `(*Hub).GetUserConnections(userID)` from `hub/hub.go`: a snapshot
slice of the user's connections, empty when the user is absent. -/
def Hub.GetUserConnections (h : Hub) (userID : UserId) : List Conn :=
  (findSet userID h.clients).getD []

-- Basic association-list lemmas used throughout.

theorem findSet_setKey_self (u : UserId) (s : List Conn) (l : List (UserId × List Conn)) :
    findSet u (setKey u s l) = some s := by
  induction l with
  | nil => simp [setKey, findSet]
  | cons p rest ih =>
    by_cases hp : p.1 = u
    · simp [setKey, hp, findSet]
    · simp [setKey, hp, findSet, ih]

theorem findSet_setKey_ne (u v : UserId) (s : List Conn) (l : List (UserId × List Conn))
    (hvu : v ≠ u) : findSet v (setKey u s l) = findSet v l := by
  have huv : ¬ (u = v) := fun h => hvu h.symm
  induction l with
  | nil => simp [setKey, findSet, huv]
  | cons p rest ih =>
    obtain ⟨k, w⟩ := p
    by_cases hp : k = u
    · have hkv : ¬ (k = v) := fun h => hvu ((hp.symm.trans h).symm)
      simp [setKey, hp, findSet, huv, hkv]
    · simp only [setKey, if_neg hp, findSet]
      by_cases hv : k = v
      · simp [hv]
      · simp [hv, ih]

theorem findSet_delKey_self (u : UserId) (l : List (UserId × List Conn)) :
    findSet u (delKey u l) = none := by
  induction l with
  | nil => simp [delKey, findSet]
  | cons p rest ih =>
    obtain ⟨k, w⟩ := p
    by_cases hp : k = u
    · simp [delKey, hp, ih]
    · simp [delKey, hp, findSet, ih]

theorem findSet_delKey_ne (u v : UserId) (l : List (UserId × List Conn))
    (hvu : v ≠ u) : findSet v (delKey u l) = findSet v l := by
  have huv : ¬ (u = v) := fun h => hvu h.symm
  induction l with
  | nil => simp [delKey]
  | cons p rest ih =>
    obtain ⟨k, w⟩ := p
    by_cases hp : k = u
    · have hkv : ¬ (k = v) := fun h => hvu ((hp.symm.trans h).symm)
      simp [delKey, hp, findSet, hkv, huv, ih]
    · simp only [delKey, if_neg hp, findSet]
      by_cases hv : k = v
      · simp [hv]
      · simp [hv, ih]

theorem setKey_findSet_eq (u : UserId) (s : List Conn) (l : List (UserId × List Conn))
    (hf : findSet u l = some s) : setKey u s l = l := by
  induction l with
  | nil => simp [findSet] at hf
  | cons p rest ih =>
    obtain ⟨k, w⟩ := p
    by_cases hp : k = u
    · simp only [findSet, if_pos hp, Option.some.injEq] at hf
      subst hp
      subst hf
      simp [setKey]
    · simp only [findSet, if_neg hp] at hf
      simp [setKey, hp, ih hf]

theorem findSet_mem (u : UserId) (s : List Conn) (l : List (UserId × List Conn))
    (hf : findSet u l = some s) : (u, s) ∈ l := by
  induction l with
  | nil => simp [findSet] at hf
  | cons p rest ih =>
    obtain ⟨k, w⟩ := p
    by_cases hp : k = u
    · simp only [findSet, if_pos hp, Option.some.injEq] at hf
      subst hp
      subst hf
      exact List.mem_cons_self _ _
    · simp only [findSet, if_neg hp] at hf
      exact List.mem_cons_of_mem _ (ih hf)

theorem removeConn_of_not_mem (c : Conn) (s : List Conn) (hc : c ∉ s) :
    removeConn c s = s := by
  induction s with
  | nil => rfl
  | cons x rest ih =>
    simp only [List.mem_cons, not_or] at hc
    have hxc : ¬ (x = c) := fun h => hc.1 h.symm
    simp [removeConn, hxc, ih hc.2]

theorem insertConn_ne_nil (c : Conn) (s : List Conn) : insertConn c s ≠ [] := by
  unfold insertConn
  by_cases hc : c ∈ s
  · simp only [if_pos hc]
    rintro rfl
    simp at hc
  · simp [if_neg hc]

theorem insertConn_of_mem (c : Conn) (s : List Conn) (hc : c ∈ s) :
    insertConn c s = s := by
  simp [insertConn, hc]

/-!
Wire messages written to websocket connections by `main.go`.  Marshalling
of these fixed-shape structs (`json.Marshal`) cannot fail, so the
`marshalErr` branches of the source are dead and marshalling is modelled
as the identity on the structured value.
-/

/-- Server-to-client JSON frames built in `main.go`:
`UserStatusBroadcast`, `OutgoingWsMessage` (tag `incoming_message`),
`TypingIndicatorMessage` and `ReadReceiptUpdateMessage`. -/
inductive WireMsg
  | userStatus (tag : String) (userId : UserId)
  | incoming (senderId : UserId) (senderUsername : String) (content : String)
  | typing (tag : String) (recipientId : UserId) (senderId : UserId)
  | readReceiptUpdate (readerId : UserId) (senderId : UserId)
deriving DecidableEq

/-- Observable interactions of the `GET /ws` handler with its
collaborators: a `store.UpdateUserStatus` call, a `store.CreateMessage`
call, a direct `WriteMessage`/`WriteJSON` to one connection, and a
`connectionHub.Broadcast` call. -/
inductive Effect
  | persistStatus (userId : UserId) (status : String)
  | persistMessage (senderId : UserId) (receiverId : UserId) (content : String)
  | send (conn : Conn) (msg : WireMsg)
  | broadcast (msg : WireMsg) (excludeUserId : UserId)
deriving DecidableEq

/-- Fan-out loop body of `(*Hub).Broadcast`: skip the excluded user, write
`message` to every connection of every other entry. -/
def broadcastAux (message : WireMsg) (excludeUserID : UserId) :
    List (UserId × List Conn) → List Effect
  | [] => []
  | p :: rest =>
    if p.1 = excludeUserID then broadcastAux message excludeUserID rest
    else p.2.map (fun c => Effect.send c message) ++ broadcastAux message excludeUserID rest

/-- `(*Hub).Broadcast(message, excludeUserID)` from `hub/hub.go`: the list
of per-connection write attempts it performs.  A write failure is only
logged and never stops the remaining writes, so every attempt appears. -/
def Hub.Broadcast (h : Hub) (message : WireMsg) (excludeUserID : UserId) : List Effect :=
  broadcastAux message excludeUserID h.clients

/-!
Session lifecycle of the `GET /ws` handler in `main.go`.
-/

/-- Outcome of the authentication prologue of the `GET /ws` handler:
either a `websocket.ClosePolicyViolation` close frame, or an accepted
identity taken from the verified token payload. -/
inductive ConnectOutcome
  | rejected (closeCode : Nat) (reason : String)
  | accepted (userId : UserId) (username : String)
deriving DecidableEq

/-- `websocket.ClosePolicyViolation`. -/
def closePolicyViolation : Nat := 1008

/-- Token check of the `GET /ws` handler: `tokenStr := c.Query("token")`
(the empty string when the parameter is missing) is rejected when empty,
then `pasetoMaker.VerifyToken` (modelled by the oracle `verify`) decides
acceptance. -/
def wsAuth (verify : String → Option (UserId × String)) (tokenStr : String) : ConnectOutcome :=
  if tokenStr = "" then
    ConnectOutcome.rejected closePolicyViolation "token query parameter required"
  else
    match verify tokenStr with
    | none => ConnectOutcome.rejected closePolicyViolation "invalid token"
    | some (u, n) => ConnectOutcome.accepted u n

/-- Authentication followed by registration in the `GET /ws` handler: on
rejection the handler returns before ever touching the hub; on acceptance
it calls `connectionHub.Register(payload.UserID, conn)`. -/
def wsConnect (verify : String → Option (UserId × String)) (tokenStr : String)
    (h : Hub) (conn : Conn) : Hub × ConnectOutcome :=
  match wsAuth verify tokenStr with
  | ConnectOutcome.rejected code reason => (h, ConnectOutcome.rejected code reason)
  | ConnectOutcome.accepted u n => ((h.Register u conn).1, ConnectOutcome.accepted u n)

/-- Online-transition block of the `GET /ws` handler (after `Register`
returned `isFirstConnection`): when first, call `store.UpdateUserStatus`
to "online"; only when that call succeeds (`err == nil`) marshal a
`user_online` status and call `Broadcast(jsonMsg, userID)`; on failure the
error is only logged. -/
def afterRegister (userID : UserId) (isFirstConnection : Bool) (statusPersistOk : Bool) :
    List Effect :=
  if isFirstConnection then
    Effect.persistStatus userID "online" ::
      (if statusPersistOk then
        [Effect.broadcast (WireMsg.userStatus "user_online" userID) userID]
      else [])
  else []

/-- Deferred disconnect block of the `GET /ws` handler: `Unregister`, and
when it returned `isLastConnection`, call `store.UpdateUserStatus` to
"offline"; only when that call succeeds broadcast a `user_offline` status
with `excludeUserID = 0` (no exclusion); on failure the error is only
logged. -/
def onDisconnect (h : Hub) (userID : UserId) (conn : Conn) (statusPersistOk : Bool) :
    Hub × List Effect :=
  let r := h.Unregister userID conn
  if r.2 then
    (r.1, Effect.persistStatus userID "offline" ::
      (if statusPersistOk then
        [Effect.broadcast (WireMsg.userStatus "user_offline" userID) 0]
      else []))
  else (r.1, [])

/-!
Message router: the body of the receive loop of the `GET /ws` handler.
-/

/-- Decode outcome of one inbound frame, mirroring the two-phase parse of
the source: a non-text frame; a frame `json.Unmarshal` cannot decode; a
decoded object whose `type` field is missing or not a string; a matched
tag whose second, variant-specific unmarshal fails; or one of the three
recognised variants with their fields; or an unrecognised tag. -/
inductive Inbound
  | nonText (messageType : Int)
  | undecodable
  | missingType
  | badVariant (tag : String)
  | privateMessage (recipientId : UserId) (content : String)
  | typingInd (isStart : Bool) (recipientId : UserId)
  | messageRead (senderId : UserId)
  | unknown (tag : String)
deriving DecidableEq

/-- One iteration body of the receive loop for a successfully read frame,
as the list of collaborator effects it performs.  `persistOk` is the
oracle for the one possible `store.CreateMessage` outcome of this
iteration.  Every branch falls through to the next iteration (`continue`
or end of the `switch`): nothing here terminates the loop. -/
def handleMessage (userID : UserId) (username : String) (h : Hub) (persistOk : Bool) :
    Inbound → List Effect
  | Inbound.nonText _ => []
  | Inbound.undecodable => []
  | Inbound.missingType => []
  | Inbound.badVariant _ => []
  | Inbound.privateMessage recipientId content =>
    if recipientId ≤ 0 ∨ content = "" then []
    else
      Effect.persistMessage userID recipientId content ::
        (if persistOk then
          (h.GetUserConnections recipientId).map
            (fun c => Effect.send c (WireMsg.incoming userID username content))
        else [])
  | Inbound.typingInd isStart recipientId =>
    if recipientId ≤ 0 then []
    else
      (h.GetUserConnections recipientId).map
        (fun c => Effect.send c
          (WireMsg.typing (if isStart then "typing_start" else "typing_stop") recipientId userID))
  | Inbound.messageRead senderId =>
    if senderId ≤ 0 then []
    else
      (h.GetUserConnections senderId).map
        (fun c => Effect.send c (WireMsg.readReceiptUpdate userID senderId))
  | Inbound.unknown _ => []

/-- One event observed by the receive loop: either `conn.ReadMessage`
returned a frame (with the persistence oracle for that iteration), or it
returned an error. -/
inductive Event
  | msg (m : Inbound) (persistOk : Bool)
  | readError
deriving DecidableEq

/-- The receive loop of the `GET /ws` handler over a trace of read
events: it breaks exactly at the first read error and otherwise processes
each frame with `handleMessage` and continues. -/
def runLoop (userID : UserId) (username : String) (h : Hub) : List Event → List Effect
  | [] => []
  | Event.readError :: _ => []
  | Event.msg m persistOk :: rest =>
    handleMessage userID username h persistOk m ++ runLoop userID username h rest

/-!
Reachable registry states.
-/

/-- One registry mutation, as performed by session lifecycles. -/
inductive Op
  | reg (u : UserId) (c : Conn)
  | unreg (u : UserId) (c : Conn)
deriving DecidableEq

/-- Apply one mutation to the registry. -/
def applyOp (h : Hub) : Op → Hub
  | Op.reg u c => (h.Register u c).1
  | Op.unreg u c => (h.Unregister u c).1

/-- Registry state after a sequence of mutations starting from
`NewHub()`. -/
def runOps (ops : List Op) : Hub :=
  ops.foldl applyOp NewHub

/-- Well-formedness of the registry table: no entry holds an empty
connection set. -/
def Hub.WF (h : Hub) : Prop :=
  ∀ p ∈ h.clients, p.2 ≠ []

theorem setKey_WF (u : UserId) (s : List Conn) (hs : s ≠ []) :
    ∀ l : List (UserId × List Conn), (∀ p ∈ l, p.2 ≠ []) →
      ∀ p ∈ setKey u s l, p.2 ≠ [] := by
  intro l
  induction l with
  | nil =>
    intro _ p hp
    simp only [setKey, List.mem_singleton] at hp
    subst hp
    exact hs
  | cons q rest ih =>
    obtain ⟨k, w⟩ := q
    intro hl p hp
    by_cases hk : k = u
    · simp only [setKey, if_pos hk, List.mem_cons] at hp
      rcases hp with rfl | hp
      · exact hs
      · exact hl p (List.mem_cons_of_mem _ hp)
    · simp only [setKey, if_neg hk, List.mem_cons] at hp
      rcases hp with rfl | hp
      · exact hl (k, w) (List.mem_cons_self _ _)
      · exact ih (fun q hq => hl q (List.mem_cons_of_mem _ hq)) p hp

theorem delKey_WF (u : UserId) :
    ∀ l : List (UserId × List Conn), (∀ p ∈ l, p.2 ≠ []) →
      ∀ p ∈ delKey u l, p.2 ≠ [] := by
  intro l
  induction l with
  | nil => intro _ p hp; simp [delKey] at hp
  | cons q rest ih =>
    obtain ⟨k, w⟩ := q
    intro hl p hp
    by_cases hk : k = u
    · simp only [delKey, if_pos hk] at hp
      exact ih (fun q hq => hl q (List.mem_cons_of_mem _ hq)) p hp
    · simp only [delKey, if_neg hk, List.mem_cons] at hp
      rcases hp with rfl | hp
      · exact hl (k, w) (List.mem_cons_self _ _)
      · exact ih (fun q hq => hl q (List.mem_cons_of_mem _ hq)) p hp

theorem Register_WF (h : Hub) (u : UserId) (c : Conn) (hwf : h.WF) :
    ((h.Register u c).1).WF := by
  intro p hp
  exact setKey_WF u _ (insertConn_ne_nil c _) h.clients hwf p hp

theorem Unregister_WF (h : Hub) (u : UserId) (c : Conn) (hwf : h.WF) :
    ((h.Unregister u c).1).WF := by
  intro p hp
  unfold Hub.Unregister at hp
  cases hf : findSet u h.clients with
  | none =>
    rw [hf] at hp
    exact hwf p hp
  | some s =>
    rw [hf] at hp
    by_cases hrm : removeConn c s = []
    · simp only [if_pos hrm] at hp
      exact delKey_WF u h.clients hwf p hp
    · simp only [if_neg hrm] at hp
      exact setKey_WF u _ hrm h.clients hwf p hp

theorem foldl_WF (ops : List Op) : ∀ h : Hub, h.WF → (ops.foldl applyOp h).WF := by
  induction ops with
  | nil => intro h hwf; simpa using hwf
  | cons op rest ih =>
    intro h hwf
    simp only [List.foldl_cons]
    apply ih
    cases op with
    | reg u c => exact Register_WF h u c hwf
    | unreg u c => exact Unregister_WF h u c hwf

theorem runOps_WF (ops : List Op) : (runOps ops).WF :=
  foldl_WF ops NewHub (by intro p hp; simp [NewHub] at hp)

theorem mem_broadcastAux (message : WireMsg) (ex : UserId) (u : UserId)
    (s : List Conn) (c : Conn) :
    ∀ l, findSet u l = some s → c ∈ s → u ≠ ex →
      Effect.send c message ∈ broadcastAux message ex l := by
  intro l
  induction l with
  | nil => intro hf; simp [findSet] at hf
  | cons q rest ih =>
    obtain ⟨k, w⟩ := q
    intro hf hc hne
    by_cases hk : k = u
    · simp only [findSet, if_pos hk, Option.some.injEq] at hf
      have hkex : ¬ (k = ex) := by rw [hk]; exact hne
      simp only [broadcastAux, if_neg hkex]
      apply List.mem_append_left
      exact List.mem_map_of_mem _ (hf ▸ hc)
    · simp only [findSet, if_neg hk] at hf
      by_cases hkex : k = ex
      · simp only [broadcastAux, if_pos hkex]
        exact ih hf hc hne
      · simp only [broadcastAux, if_neg hkex]
        exact List.mem_append_right _ (ih hf hc hne)

/-!
Claim theorems.
-/

/-- C2: for every user id, connection and registry state,
`Register(userId, conn)` stores the user's previous connection set (empty
when the key was absent, so the set is created) with `conn` inserted,
leaves every other user's entry unchanged, and returns `true` if and only
if the user's connection set was empty or absent immediately before the
call. -/
theorem register_adds_and_signals_first (h : Hub) (u : UserId) (c : Conn) :
    findSet u ((h.Register u c).1).clients = some (insertConn c (h.GetUserConnections u))
    ∧ (∀ v, v ≠ u → findSet v ((h.Register u c).1).clients = findSet v h.clients)
    ∧ ((h.Register u c).2 = true ↔ h.GetUserConnections u = []) := by
  refine ⟨?_, ?_, ?_⟩
  · simp [Hub.Register, Hub.GetUserConnections, findSet_setKey_self]
  · intro v hv
    simp [Hub.Register, findSet_setKey_ne u v _ h.clients hv]
  · cases hf : findSet u h.clients with
    | none => simp [Hub.Register, Hub.GetUserConnections, hf]
    | some s => simp [Hub.Register, Hub.GetUserConnections, hf, List.isEmpty_iff]

/-- C10: registering a connection that is already in the user's set
leaves the whole registry unchanged (set semantics, no duplicate entry)
and returns `false`, the set being non-empty before the call. -/
theorem register_idempotent_on_member (h : Hub) (u : UserId) (c : Conn)
    (hmem : c ∈ h.GetUserConnections u) :
    (h.Register u c).1 = h ∧ (h.Register u c).2 = false := by
  cases hf : findSet u h.clients with
  | none =>
    rw [Hub.GetUserConnections, hf] at hmem
    simp at hmem
  | some s =>
    rw [Hub.GetUserConnections, hf] at hmem
    simp only [Option.getD_some] at hmem
    have hs : s ≠ [] := fun hnil => by rw [hnil] at hmem; simp at hmem
    constructor
    · have : insertConn c ((findSet u h.clients).getD []) = s := by
        rw [hf, Option.getD_some, insertConn_of_mem c s hmem]
      rw [Hub.Register, this]
      have hset := setKey_findSet_eq u s h.clients hf
      cases h with
      | mk cl => simp only at hset ⊢; rw [hset]
    · simp [Hub.Register, hf, List.isEmpty_iff, hs]

/-- C3: for every registry state satisfying the table invariant (no empty
sets stored, which holds for all reachable states), `Unregister(userId,
conn)` for an unknown user or a connection not in the set leaves the
registry unchanged and returns `false`; for a present connection it
removes it, leaves other users untouched, returns `true` exactly when the
removal emptied the set, and in that case the key itself is deleted. -/
theorem unregister_removes_and_signals_last (h : Hub) (u : UserId) (c : Conn)
    (hwf : h.WF) :
    (c ∉ h.GetUserConnections u → h.Unregister u c = (h, false))
    ∧ (c ∈ h.GetUserConnections u →
        ((h.Unregister u c).1).GetUserConnections u = removeConn c (h.GetUserConnections u)
        ∧ (∀ v, v ≠ u → findSet v ((h.Unregister u c).1).clients = findSet v h.clients)
        ∧ ((h.Unregister u c).2 = true ↔ removeConn c (h.GetUserConnections u) = [])
        ∧ (removeConn c (h.GetUserConnections u) = [] →
            findSet u ((h.Unregister u c).1).clients = none)) := by
  cases hf : findSet u h.clients with
  | none =>
    constructor
    · intro _
      simp [Hub.Unregister, hf]
    · intro hmem
      rw [Hub.GetUserConnections, hf] at hmem
      simp at hmem
  | some s =>
    have hs : s ≠ [] := hwf (u, s) (findSet_mem u s h.clients hf)
    have hget : h.GetUserConnections u = s := by rw [Hub.GetUserConnections, hf]; rfl
    constructor
    · intro hnotmem
      rw [hget] at hnotmem
      have hrm : removeConn c s = s := removeConn_of_not_mem c s hnotmem
      have hcond : ¬ (removeConn c s = []) := by rw [hrm]; exact hs
      have hset := setKey_findSet_eq u s h.clients hf
      rw [Hub.Unregister, hf]
      simp only [if_neg hcond, hrm]
      cases h with
      | mk cl =>
        simp only at hset ⊢
        rw [hset, if_neg hs]
    · intro _
      rw [hget]
      by_cases hrm : removeConn c s = []
      · refine ⟨?_, ?_, ?_, ?_⟩
        · rw [Hub.Unregister, hf]
          simp only [if_pos hrm]
          rw [Hub.GetUserConnections]
          simp only [findSet_delKey_self, Option.getD_none, hrm]
        · intro v hv
          rw [Hub.Unregister, hf]
          simp only [if_pos hrm]
          exact findSet_delKey_ne u v h.clients hv
        · rw [Hub.Unregister, hf]
          simp [if_pos hrm, hrm]
        · intro _
          rw [Hub.Unregister, hf]
          simp only [if_pos hrm]
          exact findSet_delKey_self u h.clients
      · refine ⟨?_, ?_, ?_, ?_⟩
        · rw [Hub.Unregister, hf]
          simp only [if_neg hrm]
          rw [Hub.GetUserConnections]
          simp [findSet_setKey_self]
        · intro v hv
          rw [Hub.Unregister, hf]
          simp only [if_neg hrm]
          exact findSet_setKey_ne u v _ h.clients hv
        · rw [Hub.Unregister, hf]
          simp [if_neg hrm, hrm]
        · intro hcontra
          exact absurd hcontra hrm

/-- C4: for every sequence of `Register`/`Unregister` operations starting
from the empty registry, the resulting state satisfies the table
invariant: a user id key is present if and only if its connection set is
non-empty. -/
theorem reachable_presence_invariant (ops : List Op) (u : UserId) :
    (findSet u (runOps ops).clients).isSome = true ↔
      (runOps ops).GetUserConnections u ≠ [] := by
  have hwf := runOps_WF ops
  cases hf : findSet u (runOps ops).clients with
  | none => simp [hf, Hub.GetUserConnections]
  | some s =>
    have hs : s ≠ [] := hwf (u, s) (findSet_mem u s _ hf)
    simp [hf, Hub.GetUserConnections, hs]

/-- C5: `Broadcast(payload, excludeUserId)` writes the payload to every
connection of every registered user whose id differs from
`excludeUserId`; with the sentinel `excludeUserId = 0` and all registered
user ids positive, the payload reaches every connection of every
registered user. -/
theorem broadcast_reaches_all_but_excluded (h : Hub) (message : WireMsg)
    (ex : UserId) (u : UserId) (s : List Conn) (c : Conn) :
    (findSet u h.clients = some s → c ∈ s → u ≠ ex →
      Effect.send c message ∈ h.Broadcast message ex)
    ∧ ((∀ p ∈ h.clients, 0 < p.1) → findSet u h.clients = some s → c ∈ s →
      Effect.send c message ∈ h.Broadcast message 0) := by
  constructor
  · intro hf hc hne
    exact mem_broadcastAux message ex u s c h.clients hf hc hne
  · intro hpos hf hc
    have hu : 0 < u := hpos (u, s) (findSet_mem u s h.clients hf)
    exact mem_broadcastAux message 0 u s c h.clients hf hc (ne_of_gt hu)

/-- C1 counterexample: at user id 1, on a first-connection online
transition whose status persistence fails, the handler performs no
`Broadcast` call at all — the effect trace is exactly the failed
persistence attempt — and likewise for the last-connection offline
transition of the registry `[(1, [5])]`.  The `user_online` /
`user_offline` broadcast does not proceed when persistence fails. -/
theorem presence_broadcast_skipped_on_persist_failure :
    afterRegister 1 true false = [Effect.persistStatus 1 "online"]
    ∧ (∀ m x, Effect.broadcast m x ∉ afterRegister 1 true false)
    ∧ (onDisconnect ⟨[(1, [5])]⟩ 1 5 false).2 = [Effect.persistStatus 1 "offline"]
    ∧ (∀ m x, Effect.broadcast m x ∉ (onDisconnect ⟨[(1, [5])]⟩ 1 5 false).2) := by
  refine ⟨by decide, ?_, by decide, ?_⟩
  · intro m x hx
    simp [afterRegister] at hx
  · intro m x hx
    have hd : (onDisconnect ⟨[(1, [5])]⟩ 1 5 false).2 = [Effect.persistStatus 1 "offline"] := by
      decide
    rw [hd] at hx
    simp at hx

/-- C1 amended: on both presence transitions the persistence attempt is
made and, when it fails, only logged with the registry broadcast skipped;
the `user_online` (resp. `user_offline`) broadcast call occurs if and
only if the transition fired and the status persistence succeeded. -/
theorem presence_broadcast_iff_persist_ok (h : Hub) (userID : UserId) (conn : Conn)
    (ok : Bool) :
    ((∃ m x, Effect.broadcast m x ∈ afterRegister userID true ok) ↔ ok = true)
    ∧ afterRegister userID true false = [Effect.persistStatus userID "online"]
    ∧ ((∃ m x, Effect.broadcast m x ∈ (onDisconnect h userID conn ok).2) ↔
        ok = true ∧ (h.Unregister userID conn).2 = true) := by
  refine ⟨?_, rfl, ?_⟩
  · cases ok <;> simp [afterRegister]
  · cases hr : (h.Unregister userID conn).2 <;> cases ok <;> simp [onDisconnect, hr]

/-- C6: a valid `private_message` (positive recipient, non-empty content)
is persisted with sender = the connection's authenticated identity and
receiver = the stated recipient as the first effect, before any delivery
attempt; on persistence failure no delivery is attempted; on success the
outbound `incoming_message` envelope is written to exactly the
recipient's registered connections (persisted-only when there are none);
and the receive loop continues in every case. -/
theorem private_message_persist_then_deliver (userID : UserId) (username : String)
    (h : Hub) (ok : Bool) (r : UserId) (c : String)
    (hr : 0 < r) (hc : c ≠ "") :
    (handleMessage userID username h ok (Inbound.privateMessage r c)).head? =
        some (Effect.persistMessage userID r c)
    ∧ (ok = false →
        handleMessage userID username h ok (Inbound.privateMessage r c) =
          [Effect.persistMessage userID r c])
    ∧ (ok = true →
        handleMessage userID username h ok (Inbound.privateMessage r c) =
          Effect.persistMessage userID r c ::
            (h.GetUserConnections r).map
              (fun cn => Effect.send cn (WireMsg.incoming userID username c)))
    ∧ (h.GetUserConnections r = [] →
        handleMessage userID username h ok (Inbound.privateMessage r c) =
          [Effect.persistMessage userID r c])
    ∧ (∀ rest, runLoop userID username h (Event.msg (Inbound.privateMessage r c) ok :: rest) =
        handleMessage userID username h ok (Inbound.privateMessage r c) ++
          runLoop userID username h rest) := by
  have hcond : ¬ (r ≤ 0 ∨ c = "") := by
    simp only [not_or]
    exact ⟨not_le.mpr hr, hc⟩
  refine ⟨?_, ?_, ?_, ?_, fun rest => rfl⟩
  · simp only [handleMessage, if_neg hcond]
    rfl
  · intro hok
    subst hok
    simp only [handleMessage, if_neg hcond]
    rfl
  · intro hok
    subst hok
    simp only [handleMessage, if_neg hcond]
    rfl
  · intro hnone
    cases ok <;> simp [handleMessage, if_neg hcond, hnone]

/-- C7: a missing token (empty `token` query parameter) or a token the
verifier rejects causes a policy-violation close with the registry left
untouched — the connection is never registered; an accepted outcome can
only arise from a successful verification, and only then is the
connection registered. -/
theorem auth_gate_before_register (verify : String → Option (UserId × String))
    (tokenStr : String) (h : Hub) (conn : Conn) (u : UserId) (n : String) :
    ((tokenStr = "" ∨ verify tokenStr = none) →
      (wsConnect verify tokenStr h conn).1 = h ∧
      ∃ r, (wsConnect verify tokenStr h conn).2 =
        ConnectOutcome.rejected closePolicyViolation r)
    ∧ ((wsConnect verify tokenStr h conn).2 = ConnectOutcome.accepted u n →
        tokenStr ≠ "" ∧ verify tokenStr = some (u, n) ∧
        (wsConnect verify tokenStr h conn).1 = (h.Register u conn).1) := by
  constructor
  · rintro (rfl | hv)
    · simp [wsConnect, wsAuth]
    · by_cases ht : tokenStr = ""
      · subst ht
        simp [wsConnect, wsAuth]
      · simp [wsConnect, wsAuth, ht, hv]
  · intro hacc
    by_cases ht : tokenStr = ""
    · subst ht
      simp [wsConnect, wsAuth] at hacc
    · cases hv : verify tokenStr with
      | none => simp [wsConnect, wsAuth, ht, hv] at hacc
      | some p =>
        obtain ⟨u2, n2⟩ := p
        simp only [wsConnect, wsAuth, if_neg ht, hv, ConnectOutcome.accepted.injEq] at hacc
        obtain ⟨rfl, rfl⟩ := hacc
        refine ⟨ht, rfl, ?_⟩
        simp [wsConnect, wsAuth, ht, hv]

theorem runLoop_append (userID : UserId) (username : String) (h : Hub) :
    ∀ events tail : List Event, Event.readError ∉ events →
      runLoop userID username h (events ++ tail) =
        runLoop userID username h events ++ runLoop userID username h tail := by
  intro events
  induction events with
  | nil => intro tail _; simp [runLoop]
  | cons e es ih =>
    intro tail hne
    cases e with
    | msg m2 ok2 =>
      have hrest : Event.readError ∉ es := fun hx => hne (List.mem_cons_of_mem _ hx)
      show handleMessage userID username h ok2 m2 ++ runLoop userID username h (es ++ tail) =
        (handleMessage userID username h ok2 m2 ++ runLoop userID username h es) ++
          runLoop userID username h tail
      rw [ih tail hrest, List.append_assoc]
    | readError => exact absurd (List.mem_cons_self _ _) hne

/-- C8: an undecodable payload, a payload without a `type` tag, or an
unrecognised tag is discarded with no effect and the receive loop
continues; the loop stops exactly at a read error, so every frame of a
read-error-free trace (in particular any valid envelope after a discarded
one) is still processed. -/
theorem discard_keeps_loop_alive (userID : UserId) (username : String) (h : Hub)
    (m : Inbound) (ok : Bool) (rest : List Event) (events tail : List Event)
    (hm : m = Inbound.undecodable ∨ m = Inbound.missingType ∨ ∃ t, m = Inbound.unknown t)
    (hne : Event.readError ∉ events) :
    handleMessage userID username h ok m = []
    ∧ runLoop userID username h (Event.msg m ok :: rest) = runLoop userID username h rest
    ∧ runLoop userID username h (Event.readError :: rest) = []
    ∧ runLoop userID username h (events ++ tail) =
        runLoop userID username h events ++ runLoop userID username h tail := by
  have h1 : handleMessage userID username h ok m = [] := by
    rcases hm with rfl | rfl | ⟨t, rfl⟩ <;> rfl
  exact ⟨h1, by simp [runLoop, h1], rfl, runLoop_append userID username h events tail hne⟩

/-- C9: a `private_message` whose recipient id is non-positive or whose
content is empty produces no persistence call and no delivery attempt,
and the receive loop continues with the next frame. -/
theorem invalid_private_message_discarded (userID : UserId) (username : String)
    (h : Hub) (ok : Bool) (r : UserId) (c : String) (rest : List Event)
    (hinv : r ≤ 0 ∨ c = "") :
    (∀ s rcv ct, Effect.persistMessage s rcv ct ∉
        handleMessage userID username h ok (Inbound.privateMessage r c))
    ∧ (∀ cn m, Effect.send cn m ∉
        handleMessage userID username h ok (Inbound.privateMessage r c))
    ∧ runLoop userID username h (Event.msg (Inbound.privateMessage r c) ok :: rest) =
        runLoop userID username h rest := by
  have h0 : handleMessage userID username h ok (Inbound.privateMessage r c) = [] := by
    simp only [handleMessage]
    rw [if_pos hinv]
  refine ⟨?_, ?_, ?_⟩ <;> simp [h0, runLoop]

/-!
Concrete-input witnesses for the hypothesised theorems.
-/

theorem unregister_spec_witness :
    Hub.Unregister ⟨[(1, [5])]⟩ 1 9 = (⟨[(1, [5])]⟩, false) :=
  (unregister_removes_and_signals_last ⟨[(1, [5])]⟩ 1 9
    (by intro p hp; rw [List.mem_singleton] at hp; subst hp; simp)
    ).1 (by decide)

theorem broadcast_spec_witness :
    Effect.send 9 (WireMsg.userStatus "user_online" 1) ∈
      Hub.Broadcast ⟨[(2, [9])]⟩ (WireMsg.userStatus "user_online" 1) 1 :=
  (broadcast_reaches_all_but_excluded ⟨[(2, [9])]⟩ (WireMsg.userStatus "user_online" 1)
    1 2 [9] 9).1 (by decide) (by decide) (by decide)

theorem private_message_spec_witness :
    (handleMessage 1 "alice" ⟨[(2, [8, 9])]⟩ true (Inbound.privateMessage 2 "hi")).head? =
        some (Effect.persistMessage 1 2 "hi")
    ∧ handleMessage 1 "alice" ⟨[(2, [8, 9])]⟩ true (Inbound.privateMessage 2 "hi") =
        Effect.persistMessage 1 2 "hi" ::
          [Effect.send 8 (WireMsg.incoming 1 "alice" "hi"),
           Effect.send 9 (WireMsg.incoming 1 "alice" "hi")] := by
  have T := private_message_persist_then_deliver 1 "alice" ⟨[(2, [8, 9])]⟩ true 2 "hi"
    (by decide) (by decide)
  exact ⟨T.1, by rw [T.2.2.1 rfl]; decide⟩

theorem auth_gate_witness :
    (wsConnect (fun s => if s = "tok" then some ((1 : UserId), "alice") else none)
        "" ⟨[]⟩ 3).1 = (⟨[]⟩ : Hub)
    ∧ ∃ r, (wsConnect (fun s => if s = "tok" then some ((1 : UserId), "alice") else none)
        "" ⟨[]⟩ 3).2 = ConnectOutcome.rejected closePolicyViolation r :=
  (auth_gate_before_register
    (fun s => if s = "tok" then some ((1 : UserId), "alice") else none)
    "" ⟨[]⟩ 3 1 "alice").1 (Or.inl rfl)

theorem discard_keeps_loop_alive_witness :
    handleMessage 1 "alice" ⟨[]⟩ true (Inbound.unknown "video_call") = []
    ∧ runLoop 1 "alice" ⟨[]⟩
        [Event.msg (Inbound.unknown "video_call") true,
         Event.msg (Inbound.messageRead 2) true] =
      runLoop 1 "alice" ⟨[]⟩ [Event.msg (Inbound.messageRead 2) true] := by
  have T := discard_keeps_loop_alive 1 "alice" ⟨[]⟩ (Inbound.unknown "video_call") true
    [Event.msg (Inbound.messageRead 2) true] [] []
    (Or.inr (Or.inr ⟨"video_call", rfl⟩)) (by simp)
  exact ⟨T.1, T.2.1⟩

theorem invalid_private_message_witness :
    Effect.persistMessage 1 0 "hi" ∉
        handleMessage 1 "alice" ⟨[]⟩ true (Inbound.privateMessage 0 "hi") :=
  (invalid_private_message_discarded 1 "alice" ⟨[]⟩ true 0 "hi" []
    (Or.inl (by decide))).1 1 0 "hi"

theorem register_idempotent_witness :
    (Hub.Register ⟨[(1, [7])]⟩ 1 7).1 = (⟨[(1, [7])]⟩ : Hub)
    ∧ (Hub.Register ⟨[(1, [7])]⟩ 1 7).2 = false :=
  register_idempotent_on_member ⟨[(1, [7])]⟩ 1 7 (by decide)

end SimpleChat
